import Mathlib

set_option autoImplicit false

/-!
Verification of the card-importer (`build_carddb_ptcg.py`) and of the
message-length check in `common/youtube.py`, as a shallow embedding.

Conventions of the embedding:
* a card record keeps exactly the fields the grouping and naming logic
  reads (`name`, `supertype`, `number`, `set.id`, `set.ptcgoCode`,
  `set.releaseDate`);
* `clean_text` lives in `common.card`, outside this snapshot, so the
  functions that call it take it as an explicit parameter `clean`;
* Python code that can raise is modelled with `Option`/`Except`:
  a `KeyError` in `cost` becomes `none`, the `TypeError` in
  `check_message_length` becomes `Except.error`.
-/

namespace PTCG

/-- The fields of `card['set']` that `build_carddb_ptcg.py` reads. -/
structure CardSet where
  id : String
  ptcgoCode : Option String
  releaseDate : String
  deriving Repr, DecidableEq

/-- A card record as returned by the catalog API, restricted to the fields
the grouping and naming logic reads.  The gameplay attributes consumed only
by the description renderer `gen_text` (types, hp, attacks, ...) play no
role in any naming or grouping behaviour; the cost renderer `cost`, which
is modelled, receives its token list directly. -/
structure Card where
  name : String
  supertype : String
  number : String
  set : CardSet
  deriving Repr, DecidableEq

/-- The fixed type-to-letter table `TYPEABBR`, in source order. -/
def TYPEABBR : List (String × String) :=
  [("Colorless", "C"), ("Darkness", "D"), ("Dragon", "N"), ("Grass", "G"),
   ("Fairy", "Y"), ("Fighting", "F"), ("Fire", "R"), ("Lightning", "L"),
   ("Metal", "M"), ("Psychic", "P"), ("Water", "W")]

/-- Python `TYPEABBR[t]`: `some` abbreviation, `none` for the `KeyError`. -/
def lookupAbbr (t : String) : Option String :=
  (TYPEABBR.find? (fun e => e.1 == t)).map (fun e => e.2)

/-- The loop `for cost in costs: res.append(TYPEABBR[cost])`: abbreviate
every token, failing (`none`, the `KeyError`) at the first unmapped one. -/
def mapAbbr : List String → Option (List String)
  | [] => some []
  | t :: ts =>
    match lookupAbbr t with
    | none => none
    | some a => (mapAbbr ts).map (fun l => a :: l)

/-- `cost(costs, colorlesscount)` from `build_carddb_ptcg.py`.  With
`colorlesscount` (the default, used by both call sites): drop `"Free"`
tokens, count the `"Colorless"` ones, and when the count is nonzero or
nothing is left emit the count as a literal integer and drop the
`"Colorless"` tokens; then one letter per remaining token.  `none` models
the `KeyError` on a token missing from `TYPEABBR`. -/
def cost (colorlesscount : Bool) (costs : List String) : Option String :=
  let p :=
    if colorlesscount then
      let costs1 := costs.filter (fun i => i != "Free")
      let count := (costs1.filter (fun i => i == "Colorless")).length
      if count ≠ 0 ∨ costs1 = [] then
        ([toString count], costs1.filter (fun i => i != "Colorless"))
      else
        ([], costs1)
    else
      ([], costs)
  (mapAbbr p.2).map (fun l => String.join (p.1 ++ l))

/-- `setcode(card)`: the set's `ptcgoCode` when present and non-empty
(Python `or` treats the empty string as falsy), otherwise the upper-cased
set id. -/
def setcode (card : Card) : String :=
  match card.set.ptcgoCode with
  | some c => if c = "" then card.set.id.toUpper else c
  | none => card.set.id.toUpper

/-- The fully qualified display name `"Name (SET NUM)"`. -/
def fqName (card : Card) : String :=
  card.name ++ " (" ++ setcode card ++ " " ++ card.number ++ ")"

/-- The set-qualified display name `"Name (SET)"`. -/
def setName (card : Card) : String :=
  card.name ++ " (" ++ setcode card ++ ")"

/-- `gen_cardnames(card, unique, setunique)`: the (display name, flag)
pairs in yield order.  The second component is the value bound as `hidden`
in `process_card` and inserted into the `hidden` column by `main`. -/
def gen_cardnames (card : Card) (unique setunique : Bool) : List (String × Bool) :=
  if card.supertype = "Pokémon" then
    (fqName card, unique || setunique) ::
      ((if setunique then [(setName card, unique)] else []) ++
        (if unique then [(card.name, false)] else []))
  else
    [(card.name, false)]

/-- One tuple as yielded by `process_card` (and inserted by `main`):
display name, filtered name, hidden flag and the source card.  The Python
tuple also carries the rendered description between `filteredname` and
`hidden`; no claim refers to it and it plays no role in naming, so it is
not modelled. -/
structure Row where
  cardname : String
  filteredname : String
  hidden : Bool
  card : Card
  deriving Repr, DecidableEq

/-- `process_card(card, group)`: compute `unique` (no other card with this
cleaned name) and `setunique` (no same-set sibling), then one row per
generated name, with `filteredname = clean_text(cardname)`. -/
def process_card (clean : String → String) (card : Card) (group : List Card) : List Row :=
  let unique := decide (group.length ≤ 1)
  let setunique := decide ((group.filter (fun c => c.set.id == card.set.id)).length ≤ 1)
  (gen_cardnames card unique setunique).map (fun p => ⟨p.1, clean p.1, p.2, card⟩)

/-- The rows `iter_cards` yields for one group: each member processed
against the whole group (before the `get_hacks` step of `main`). -/
def group_rows (clean : String → String) (group : List Card) : List Row :=
  group.flatMap (fun c => process_card clean c group)

/-- A row is bare (fully unqualified) when its display name is exactly the
name of the card it was generated from. -/
def bareRow (r : Row) : Bool := r.cardname == r.card.name

/-- `get_hacks(cardname, filteredname, card)`: the fixed exception list.
The two Unown variants get distinct filtered-name suffixes; the bare-name
rows of the three listed "ex" cards are marked to be skipped. -/
def get_hacks (cardname filteredname : String) (card : Card) : String × String × Bool :=
  let f1 :=
    if card.name = "Unown" ∧ card.number = "!" then filteredname ++ "exclamation"
    else filteredname
  let f2 :=
    if card.name = "Unown" ∧ card.number = "?" then f1 ++ "question"
    else f1
  let skip :=
    decide ((card.name = "Chansey ex" ∨ card.name = "Electabuzz ex" ∨
      card.name = "Magmar ex") ∧ cardname = card.name)
  (cardname, f2, skip)

/-- One `defaultdict(list)` append: add `c` to the entry of key `k`,
keeping key insertion order, creating the entry at the end when absent. -/
def insertGrouped : List (String × List Card) → String → Card → List (String × List Card)
  | [], k, c => [(k, [c])]
  | (k0, g) :: rest, k, c =>
    if k0 == k then (k0, g ++ [c]) :: rest else (k0, g) :: insertGrouped rest k c

/-- The `names` dict built by `group_pkmn_cards` / `group_other_cards`:
cards grouped by the cleaned name, members in fetch order. -/
def groupByName (clean : String → String) (cards : List Card) : List (String × List Card) :=
  cards.foldl (fun m c => insertGrouped m (clean c.name) c) []

/-- `group_pkmn_cards(cards)`: every same-name class survives whole. -/
def group_pkmn_cards (clean : String → String) (cards : List Card) : List (List Card) :=
  (groupByName clean cards).map (fun e => e.2)

/-- Python `max(c :: cs, key=key)`: left fold that replaces the current
maximum only on a strictly greater key, so the first maximum wins ties. -/
def pymax (key : Card → String) (c : Card) (cs : List Card) : Card :=
  cs.foldl (fun best x => if key best < key x then x else best) c

/-- The key of `group_other_cards`: `card['set']['releaseDate']`. -/
def releaseKey (c : Card) : String := c.set.releaseDate

/-- `group_other_cards(cards)`: one singleton group per cleaned name,
keeping the member with the maximum release date.  (`max` on an empty
group cannot occur: every dict value holds at least the card that created
it; the `[]` branch is unreachable.) -/
def group_other_cards (clean : String → String) (cards : List Card) : List (List Card) :=
  (groupByName clean cards).map (fun e =>
    match e.2 with
    | [] => []
    | c :: cs => [pymax releaseKey c cs])

/-- The value stored under key `k` in the grouping dict (`[]` if absent):
Python `names[k]` read access, first matching entry. -/
def lookupGroup : List (String × List Card) → String → List Card
  | [], _ => []
  | e :: rest, k => if e.1 == k then e.2 else lookupGroup rest k

/-- `m` is the first element of `l` attaining the maximal key: it occurs at
an index `i`, every element's key is `≤` its key, and every element before
`i` has a strictly smaller key (so on an exact tie the first wins). -/
def isFirstMax (key : Card → String) (m : Card) (l : List Card) : Prop :=
  ∃ i, l.get? i = some m ∧ (∀ x ∈ l, key x ≤ key m) ∧
    ∀ j x, j < i → l.get? j = some x → key x < key m

/-- A concrete set and Pokémon card for witnesses and counterexamples. -/
def exSet1 : CardSet := ⟨"sid1", some "S1", "2000/01/01"⟩

/-- A second set, distinct id, for two-set groups. -/
def exSet2 : CardSet := ⟨"sid2", some "S2", "2001/05/05"⟩

/-- A set with equal release date to `exSet2`, for exact-tie tests. -/
def exSet3 : CardSet := ⟨"sid3", none, "2001/05/05"⟩

/-- A Pokémon card alone in its group in witness scenarios. -/
def cardA : Card := ⟨"Alpha", "Pokémon", "1", exSet1⟩

/-- A second Pokémon card with the same name as `cardA`, other set. -/
def cardA2 : Card := ⟨"Alpha", "Pokémon", "3", exSet2⟩

/-- A non-Pokémon (Trainer) card. -/
def cardT : Card := ⟨"Potion", "Trainer", "7", exSet2⟩

/-- A Trainer card with the same name as `cardT` and an equal release
date, fetched later: the exact-tie case. -/
def cardT2 : Card := ⟨"Potion", "Trainer", "9", exSet3⟩

/-- The Unown "!" record. -/
def unownBang : Card := ⟨"Unown", "Pokémon", "!", exSet1⟩

/-- The Unown "?" record. -/
def unownQuest : Card := ⟨"Unown", "Pokémon", "?", exSet1⟩

/-- A "Chansey ex" record, subject to the bare-name skip hack. -/
def chanseyEx : Card := ⟨"Chansey ex", "Pokémon", "10", exSet2⟩

end PTCG

namespace YT

/-- A Python runtime value, as far as `check_message_length` manipulates
one: the `bytes` object produced by `str.encode`, and `int`. -/
inductive PyVal where
  | bytes : List Nat → PyVal
  | int : Int → PyVal
  deriving Repr, DecidableEq

/-- UTF-16-LE encoding of one unicode scalar value, as
`str.encode('utf-16-le')` produces it: two little-endian bytes below
U+10000, otherwise a little-endian surrogate pair. -/
def utf16leChar (c : Char) : List Nat :=
  let n := c.toNat
  if n < 0x10000 then [n % 256, n / 256]
  else
    let m := n - 0x10000
    let hi := 0xD800 + m / 0x400
    let lo := 0xDC00 + m % 0x400
    [hi % 256, hi / 256, lo % 256, lo / 256]

/-- `message.encode('utf-16-le')`. -/
def utf16le (s : String) : List Nat :=
  (s.data.map utf16leChar).flatten

/-- Python `//` on the values in play: floor division on `int // int`,
a `TypeError` whenever either operand is a `bytes` object, which does not
support `//`. -/
def pyFloorDiv : PyVal → PyVal → Except String PyVal
  | PyVal.int a, PyVal.int b =>
    if b = 0 then Except.error "ZeroDivisionError: integer division or modulo by zero"
    else Except.ok (PyVal.int (Int.fdiv a b))
  | PyVal.bytes _, _ =>
    Except.error "TypeError: unsupported operand types for //: bytes and int"
  | PyVal.int _, PyVal.bytes _ =>
    Except.error "TypeError: unsupported operand types for //: int and bytes"

/-- Python `<=` on the values in play: defined on `int <= int` only. -/
def pyLe : PyVal → PyVal → Except String Bool
  | PyVal.int a, PyVal.int b => Except.ok (decide (a ≤ b))
  | _, _ => Except.error "TypeError: unsupported comparison"

/-- `check_message_length(message, max_len)` from `common/youtube.py`,
line for line: `length = message.encode('utf-16-le') // 2` floor-divides
the bytes object itself (not its length) by `2`, then the result is
compared with `length <= max_len`. -/
def check_message_length (message : String) (max_len : Int) : Except String Bool := do
  let length ← pyFloorDiv (PyVal.bytes (utf16le message)) (PyVal.int 2)
  pyLe length (PyVal.int max_len)

end YT

namespace PTCG

/-- Claim C7 helper: `mapAbbr` fails exactly when some token of the list has
no `TYPEABBR` entry. -/
theorem mapAbbr_eq_none_iff (l : List String) :
    mapAbbr l = none ↔ ∃ t ∈ l, lookupAbbr t = none := by
  induction l with
  | nil => simp [mapAbbr]
  | cons t ts ih =>
    cases h : lookupAbbr t with
    | none => simp [mapAbbr, h]
    | some a => simp [mapAbbr, h, ih]

/-- Tokens surviving both filters of `cost` are exactly the tokens that are
neither `"Free"` nor `"Colorless"`. -/
theorem exists_bad_filtered_iff (costs : List String) :
    (∃ t ∈ (costs.filter (fun i => i != "Free")).filter (fun i => i != "Colorless"),
        lookupAbbr t = none) ↔
      ∃ t ∈ costs, t ≠ "Free" ∧ t ≠ "Colorless" ∧ lookupAbbr t = none := by
  constructor
  · rintro ⟨t, ht, hb⟩
    rw [List.mem_filter] at ht
    obtain ⟨ht1, ht2⟩ := ht
    rw [List.mem_filter] at ht1
    exact ⟨t, ht1.1, by simpa using ht1.2, by simpa using ht2, hb⟩
  · rintro ⟨t, ht, h1, h2, hb⟩
    exact ⟨t, by
      rw [List.mem_filter]
      exact ⟨by rw [List.mem_filter]; exact ⟨ht, by simpa using h1⟩, by simpa using h2⟩, hb⟩

/-- An unmapped token among the `"Free"`-filtered tokens is never
`"Colorless"` (which is mapped), so the two filtered views agree on the
existence of an unmapped token. -/
theorem exists_bad_nofree_iff (costs : List String) :
    (∃ t ∈ costs.filter (fun i => i != "Free"), lookupAbbr t = none) ↔
      ∃ t ∈ costs, t ≠ "Free" ∧ t ≠ "Colorless" ∧ lookupAbbr t = none := by
  constructor
  · rintro ⟨t, ht, hb⟩
    rw [List.mem_filter] at ht
    refine ⟨t, ht.1, by simpa using ht.2, ?_, hb⟩
    intro hc
    rw [hc] at hb
    exact Option.noConfusion ((rfl : lookupAbbr "Colorless" = some "C") ▸ hb)
  · rintro ⟨t, ht, h1, _, hb⟩
    exact ⟨t, by rw [List.mem_filter]; exact ⟨ht, by simpa using h1⟩, hb⟩

/-- Claim C7: the cost renderer (with the default `colorlesscount=True`)
raises its unhandled lookup error if and only if the input contains a token
outside `TYPEABBR` after removal of `"Free"` and `"Colorless"` tokens; when
every remaining token is mapped it succeeds with a string. -/
theorem cost_keyerror_iff (costs : List String) :
    cost true costs = none ↔
      ∃ t ∈ costs, t ≠ "Free" ∧ t ≠ "Colorless" ∧ lookupAbbr t = none := by
  unfold cost
  simp only [if_true]
  by_cases hbr :
      ((costs.filter (fun i => i != "Free")).filter (fun i => i == "Colorless")).length ≠ 0 ∨
        costs.filter (fun i => i != "Free") = []
  · rw [if_pos hbr]
    simp only [Option.map_eq_none']
    rw [mapAbbr_eq_none_iff]
    exact exists_bad_filtered_iff costs
  · rw [if_neg hbr]
    simp only [Option.map_eq_none']
    rw [mapAbbr_eq_none_iff]
    exact exists_bad_nofree_iff costs

/-- Claim C6 counterexample: `cost` on `["Fire"]` returns `"R"`, not the
`"0R"` the claim states — the count digit is only emitted when the
colorless count is nonzero or nothing remains after dropping `"Free"`. -/
theorem cost_fire_cex :
    cost true ["Fire"] = some "R" ∧ some "R" ≠ some "0R" := by
  refine ⟨by decide, by decide⟩

/-- Claim C6 (amended): `["Colorless","Colorless","Fire"]` renders as
`"2R"` and `["Fire"]` as `"R"`.  The generic/colorless count is rendered
as a literal integer and is emitted exactly when it is nonzero or nothing
is left after dropping `"Free"`: `"0"` appears exactly when the cost list
holds no token besides `"Free"`, and a non-empty list without colorless
tokens gets no count digit at all. -/
theorem cost_rendering :
    cost true ["Colorless", "Colorless", "Fire"] = some "2R" ∧
    cost true ["Fire"] = some "R" ∧
    (∀ costs : List String, costs.filter (fun i => i != "Free") = [] →
      cost true costs = some "0") ∧
    (∀ costs : List String, costs.filter (fun i => i != "Free") ≠ [] →
      (costs.filter (fun i => i != "Free")).filter (fun i => i == "Colorless") = [] →
      cost true costs = (mapAbbr (costs.filter (fun i => i != "Free"))).map String.join) ∧
    (∀ costs : List String,
      ((costs.filter (fun i => i != "Free")).filter (fun i => i == "Colorless")).length ≠ 0 →
      cost true costs =
        (mapAbbr ((costs.filter (fun i => i != "Free")).filter (fun i => i != "Colorless"))).map
          (fun l => String.join
            (toString ((costs.filter (fun i => i != "Free")).filter
              (fun i => i == "Colorless")).length :: l))) := by
  refine ⟨by decide, by decide, ?_, ?_, ?_⟩
  · intro costs h
    simp only [cost, if_true, h]
    decide
  · intro costs hne hcol
    have hcnt : ((costs.filter (fun i => i != "Free")).filter
        (fun i => i == "Colorless")).length = 0 := by rw [hcol]; rfl
    simp only [cost, if_true, hcnt]
    rw [if_neg (by simp [hne])]
    simp
  · intro costs hcnt
    simp only [cost, if_true]
    rw [if_pos (Or.inl hcnt)]
    simp

/-- Claim C6 witness: the three conditional parts of `cost_rendering`,
discharged at `["Free"]`, `["Fire", "Water"]` and `["Colorless"]`. -/
theorem cost_rendering_witness :
    cost true ["Free"] = some "0" ∧
    cost true ["Fire", "Water"] =
      (mapAbbr ((["Fire", "Water"] : List String).filter (fun i => i != "Free"))).map
        String.join ∧
    cost true ["Colorless"] =
      (mapAbbr (((["Colorless"] : List String).filter (fun i => i != "Free")).filter
          (fun i => i != "Colorless"))).map
        (fun l => String.join
          (toString (((["Colorless"] : List String).filter (fun i => i != "Free")).filter
            (fun i => i == "Colorless")).length :: l)) :=
  ⟨cost_rendering.2.2.1 ["Free"] (by decide),
   cost_rendering.2.2.2.1 ["Fire", "Water"] (by decide) (by decide),
   cost_rendering.2.2.2.2 ["Colorless"] (by decide)⟩

/-- The fully qualified name is strictly longer than the bare name. -/
theorem fqName_ne_name (card : Card) : fqName card ≠ card.name := by
  intro h
  have hl := congrArg String.length h
  simp only [fqName, String.length_append,
    show (" (" : String).length = 2 from rfl,
    show (" " : String).length = 1 from rfl,
    show (")" : String).length = 1 from rfl] at hl
  omega

/-- The set-qualified name is strictly longer than the bare name. -/
theorem setName_ne_name (card : Card) : setName card ≠ card.name := by
  intro h
  have hl := congrArg String.length h
  simp only [setName, String.length_append,
    show (" (" : String).length = 2 from rfl,
    show (")" : String).length = 1 from rfl] at hl
  omega

/-- The fully qualified name differs from the set-qualified name. -/
theorem fqName_ne_setName (card : Card) : fqName card ≠ setName card := by
  intro h
  have hl := congrArg String.length h
  simp only [fqName, setName, String.length_append,
    show (" (" : String).length = 2 from rfl,
    show (" " : String).length = 1 from rfl,
    show (")" : String).length = 1 from rfl] at hl
  omega

/-- Claim C4: for every non-creature record, `process_card` emits exactly
one row: the bare card name with hidden flag false. -/
theorem non_pokemon_single_row (clean : String → String) (card : Card)
    (group : List Card) (hp : card.supertype ≠ "Pokémon") :
    process_card clean card group = [⟨card.name, clean card.name, false, card⟩] := by
  simp [process_card, gen_cardnames, hp]

/-- Claim C4 witness: a concrete Trainer card. -/
theorem non_pokemon_single_row_witness :
    process_card (fun s => s) cardT [cardT] =
      [⟨cardT.name, cardT.name, false, cardT⟩] :=
  non_pokemon_single_row (fun s => s) cardT [cardT] (by decide)

/-- Claim C9: `get_hacks` applies exactly its fixed exception list: the
display name is never changed; the Unown "!" and "?" records get distinct
suffixes on the filtered name (so the two no longer share one); the skip
flag is set exactly for a row whose display name equals the bare name of
one of the three listed "ex" cards; every other filtered name passes
through unchanged. -/
theorem get_hacks_spec :
    (∀ cardname filteredname card,
      (get_hacks cardname filteredname card).1 = cardname) ∧
    (∀ cardname filteredname (card : Card), card.name = "Unown" → card.number = "!" →
      (get_hacks cardname filteredname card).2.1 = filteredname ++ "exclamation") ∧
    (∀ cardname filteredname (card : Card), card.name = "Unown" → card.number = "?" →
      (get_hacks cardname filteredname card).2.1 = filteredname ++ "question") ∧
    (∀ filteredname : String,
      filteredname ++ "exclamation" ≠ filteredname ++ "question") ∧
    (∀ cardname filteredname card,
      ((get_hacks cardname filteredname card).2.2 = true ↔
        ((card.name = "Chansey ex" ∨ card.name = "Electabuzz ex" ∨
          card.name = "Magmar ex") ∧ cardname = card.name))) ∧
    (∀ cardname filteredname (card : Card), card.name ≠ "Unown" →
      (get_hacks cardname filteredname card).2.1 = filteredname) ∧
    (∀ cardname filteredname (card : Card), card.number ≠ "!" → card.number ≠ "?" →
      (get_hacks cardname filteredname card).2.1 = filteredname) := by
  refine ⟨fun _ _ _ => rfl, ?_, ?_, ?_, ?_, ?_, ?_⟩
  · intro cn fn c h1 h2
    simp [get_hacks, h1, h2]
  · intro cn fn c h1 h2
    simp [get_hacks, h1, h2]
  · intro fn h
    have hl := congrArg String.length h
    simp only [String.length_append,
      show ("exclamation" : String).length = 11 from rfl,
      show ("question" : String).length = 8 from rfl] at hl
    omega
  · intro cn fn c
    simp [get_hacks]
  · intro cn fn c h
    simp [get_hacks, h]
  · intro cn fn c h1 h2
    simp [get_hacks, h1, h2]

/-- Claim C9 witness: the conditional parts of `get_hacks_spec`, at the
concrete Unown "!", Unown "?", "Chansey ex" and Trainer records. -/
theorem get_hacks_spec_witness :
    (get_hacks "Unown (S1 !)" "unown" unownBang).2.1 = "unown" ++ "exclamation" ∧
    (get_hacks "Unown (S1 ?)" "unown" unownQuest).2.1 = "unown" ++ "question" ∧
    (get_hacks "Chansey ex" "chanseyex" chanseyEx).2.2 = true ∧
    (get_hacks "Potion" "potion" cardT).2.1 = "potion" :=
  ⟨get_hacks_spec.2.1 "Unown (S1 !)" "unown" unownBang rfl rfl,
   get_hacks_spec.2.2.1 "Unown (S1 ?)" "unown" unownQuest rfl rfl,
   (get_hacks_spec.2.2.2.2.1 "Chansey ex" "chanseyex" chanseyEx).mpr ⟨Or.inl rfl, rfl⟩,
   get_hacks_spec.2.2.2.2.2.1 "Potion" "potion" cardT (by decide)⟩

/-- Claim C1 (amended): for every Pokémon record in its group (of size N,
with M same-set siblings including itself), `process_card` always emits
the fully qualified row `"Name (SET NUM)"` first, and that row's HIDDEN
flag is true exactly when N = 1 or M = 1 — so it is visible exactly when
N > 1 and M > 1.  The claim as stated has visible and hidden swapped. -/
theorem fq_row_always (clean : String → String) (card : Card) (group : List Card)
    (hmem : card ∈ group) (hp : card.supertype = "Pokémon") :
    (process_card clean card group).head? =
      some ⟨fqName card, clean (fqName card),
        decide (group.length = 1 ∨
          (group.filter (fun c => c.set.id == card.set.id)).length = 1), card⟩ := by
  have hN : 1 ≤ group.length := List.length_pos.mpr (List.ne_nil_of_mem hmem)
  have hMmem : card ∈ group.filter (fun c => c.set.id == card.set.id) :=
    List.mem_filter.mpr ⟨hmem, by simp⟩
  have hM : 1 ≤ (group.filter (fun c => c.set.id == card.set.id)).length :=
    List.length_pos.mpr (List.ne_nil_of_mem hMmem)
  have e1 : decide (group.length ≤ 1) = decide (group.length = 1) :=
    decide_eq_decide.mpr (by omega)
  have e2 : decide ((group.filter (fun c => c.set.id == card.set.id)).length ≤ 1) =
      decide ((group.filter (fun c => c.set.id == card.set.id)).length = 1) :=
    decide_eq_decide.mpr (by omega)
  have e3 : (decide (group.length = 1) ||
      decide ((group.filter (fun c => c.set.id == card.set.id)).length = 1)) =
      decide (group.length = 1 ∨
        (group.filter (fun c => c.set.id == card.set.id)).length = 1) := by
    by_cases h1 : group.length = 1 <;>
      by_cases h2 : (group.filter (fun c => c.set.id == card.set.id)).length = 1 <;>
        simp [h1, h2]
  simp only [process_card, gen_cardnames, if_pos hp, List.map_cons, List.head?_cons]
  rw [e1, e2, e3]

/-- Claim C1 witness: the singleton group of `cardA`. -/
theorem fq_row_always_witness :
    (process_card (fun s => s) cardA [cardA]).head? =
      some ⟨fqName cardA, fqName cardA,
        decide ((([cardA] : List Card)).length = 1 ∨
          (([cardA] : List Card).filter (fun c => c.set.id == cardA.set.id)).length = 1),
        cardA⟩ :=
  fq_row_always (fun s => s) cardA [cardA] (by decide) rfl

/-- Claim C1 counterexample: in the singleton group (N = 1, M = 1) the
claim demands the fully qualified row be visible (its hidden flag true
only when N > 1 and M > 1, which fails here), but the code emits the row
with hidden = true. -/
theorem fq_row_cex :
    ((process_card (fun s => s) cardA [cardA]).head?.map Row.hidden = some true) ∧
    ¬ ((([cardA] : List Card)).length > 1 ∧
      (([cardA] : List Card).filter (fun c => c.set.id == cardA.set.id)).length > 1) :=
  ⟨by decide, by decide⟩

/-- Claim C2 (amended): the set-qualified row `"Name (SET)"` is emitted
iff M = 1, and when emitted its HIDDEN flag (not its visibility flag) is
true iff N = 1. -/
theorem set_row_iff (clean : String → String) (card : Card) (group : List Card)
    (hmem : card ∈ group) (hp : card.supertype = "Pokémon") :
    (process_card clean card group).filter (fun r => r.cardname == setName card) =
      (if (group.filter (fun c => c.set.id == card.set.id)).length = 1 then
        [⟨setName card, clean (setName card), decide (group.length = 1), card⟩]
      else []) := by
  have hN : 1 ≤ group.length := List.length_pos.mpr (List.ne_nil_of_mem hmem)
  have hfqb : (fqName card == setName card) = false :=
    beq_eq_false_iff_ne.mpr (fqName_ne_setName card)
  have hbareb : (card.name == setName card) = false :=
    beq_eq_false_iff_ne.mpr (Ne.symm (setName_ne_name card))
  by_cases hM1 : (group.filter (fun c => c.set.id == card.set.id)).length = 1
  · have hsud : decide ((group.filter (fun c => c.set.id == card.set.id)).length ≤ 1) = true :=
      decide_eq_true (by omega)
    by_cases hN1 : group.length = 1
    · have hud : decide (group.length ≤ 1) = true := decide_eq_true (by omega)
      simp [process_card, gen_cardnames, hp, hsud, hud, hfqb, hbareb, hM1, hN1]
    · have hud : decide (group.length ≤ 1) = false := decide_eq_false (by omega)
      simp [process_card, gen_cardnames, hp, hsud, hud, hfqb, hbareb, hM1, hN1]
  · have hM2 : 2 ≤ (group.filter (fun c => c.set.id == card.set.id)).length := by
      have hMmem : card ∈ group.filter (fun c => c.set.id == card.set.id) :=
        List.mem_filter.mpr ⟨hmem, by simp⟩
      have := List.length_pos.mpr (List.ne_nil_of_mem hMmem)
      omega
    have hsud : decide ((group.filter (fun c => c.set.id == card.set.id)).length ≤ 1) = false :=
      decide_eq_false (by omega)
    have hNge : 2 ≤ group.length := le_trans hM2 (List.length_filter_le _ _)
    have hud : decide (group.length ≤ 1) = false := decide_eq_false (by omega)
    simp [process_card, gen_cardnames, hp, hsud, hud, hfqb, hM1]

/-- Claim C2 witness: the singleton group of `cardA`. -/
theorem set_row_iff_witness :
    (process_card (fun s => s) cardA [cardA]).filter
        (fun r => r.cardname == setName cardA) =
      (if (([cardA] : List Card).filter (fun c => c.set.id == cardA.set.id)).length = 1 then
        [⟨setName cardA, setName cardA, decide ((([cardA] : List Card)).length = 1), cardA⟩]
      else []) :=
  set_row_iff (fun s => s) cardA [cardA] (by decide) rfl

/-- Claim C2 counterexample: in the singleton group (N = 1) the
set-qualified row comes out with hidden = true, where the claim demands a
true VISIBILITY flag (hidden = false) since N = 1. -/
theorem set_row_cex :
    ((process_card (fun s => s) cardA [cardA]).filter
        (fun r => r.cardname == setName cardA)).map Row.hidden = [true] ∧
    (([cardA] : List Card)).length = 1 :=
  ⟨by decide, by decide⟩

/-- Claim C3 (amended): the bare row `"Name"` is emitted iff N = 1, and
when emitted its hidden flag is always FALSE (the row is the visible one);
the claim says the hidden flag is always true. -/
theorem bare_row_iff (clean : String → String) (card : Card) (group : List Card)
    (hmem : card ∈ group) (hp : card.supertype = "Pokémon") :
    (process_card clean card group).filter (fun r => r.cardname == card.name) =
      (if group.length = 1 then [⟨card.name, clean card.name, false, card⟩] else []) := by
  have hfqb : (fqName card == card.name) = false :=
    beq_eq_false_iff_ne.mpr (fqName_ne_name card)
  have hsetb : (setName card == card.name) = false :=
    beq_eq_false_iff_ne.mpr (setName_ne_name card)
  by_cases hN1 : group.length = 1
  · obtain ⟨a, rfl⟩ := List.length_eq_one.mp hN1
    obtain rfl : card = a := List.mem_singleton.mp hmem
    simp [process_card, gen_cardnames, hp, hfqb, hsetb]
  · have hN : 1 ≤ group.length := List.length_pos.mpr (List.ne_nil_of_mem hmem)
    have hud : decide (group.length ≤ 1) = false := decide_eq_false (by omega)
    cases hsu : decide ((group.filter (fun c => c.set.id == card.set.id)).length ≤ 1) with
    | false => simp [process_card, gen_cardnames, hp, hud, hsu, hfqb, hsetb, hN1]
    | true => simp [process_card, gen_cardnames, hp, hud, hsu, hfqb, hsetb, hN1]

/-- Claim C3 witness: the singleton group of `cardA`. -/
theorem bare_row_iff_witness :
    (process_card (fun s => s) cardA [cardA]).filter
        (fun r => r.cardname == cardA.name) =
      (if (([cardA] : List Card)).length = 1 then
        [⟨cardA.name, cardA.name, false, cardA⟩] else []) :=
  bare_row_iff (fun s => s) cardA [cardA] (by decide) rfl

/-- Claim C3 counterexample: for the unique card `cardA` the bare row is
emitted with hidden = false, where the claim says its hidden flag is
always true. -/
theorem bare_row_cex :
    ((process_card (fun s => s) cardA [cardA]).filter
        (fun r => r.cardname == cardA.name)).map Row.hidden = [false] ∧
    false ≠ true :=
  ⟨by decide, by decide⟩

/-- A generated pair whose name is the bare card name carries flag false:
the only bare entry `gen_cardnames` can yield is the `unique` one. -/
theorem gen_cardnames_bare_flag (c : Card) (u su : Bool) :
    ∀ p ∈ gen_cardnames c u su, p.1 = c.name → p.2 = false := by
  intro p hp hb
  by_cases hsp : c.supertype = "Pokémon"
  · simp only [gen_cardnames, if_pos hsp, List.mem_cons, List.mem_append] at hp
    rcases hp with rfl | hp
    · exact absurd hb (fqName_ne_name c)
    · rcases hp with hp | hp
      · cases su with
        | false => simp at hp
        | true =>
          simp only [if_true, List.mem_singleton] at hp
          subst hp
          exact absurd hb (setName_ne_name c)
      · cases u with
        | false => simp at hp
        | true =>
          simp only [if_true, List.mem_singleton] at hp
          subst hp
          rfl
  · simp only [gen_cardnames, if_neg hsp, List.mem_singleton] at hp
    subst hp
    rfl

/-- With `unique = false` a Pokémon card generates no bare entry. -/
theorem gen_cardnames_no_bare (c : Card) (su : Bool) (hsp : c.supertype = "Pokémon") :
    ∀ p ∈ gen_cardnames c false su, p.1 ≠ c.name := by
  intro p hp
  simp only [gen_cardnames, if_pos hsp, List.mem_cons, List.mem_append] at hp
  rcases hp with rfl | hp
  · exact fqName_ne_name c
  · rcases hp with hp | hp
    · cases su with
      | false => simp at hp
      | true =>
        simp only [if_true, List.mem_singleton] at hp
        subst hp
        exact setName_ne_name c
    · simp at hp

/-- Every bare row of `process_card` has hidden = false. -/
theorem process_card_bare_hidden (clean : String → String) (c : Card) (group : List Card) :
    ∀ r ∈ process_card clean c group, bareRow r = true → r.hidden = false := by
  intro r hr hb
  simp only [process_card, List.mem_map] at hr
  obtain ⟨p, hp, rfl⟩ := hr
  simp only [bareRow] at hb
  exact gen_cardnames_bare_flag c _ _ p hp (eq_of_beq hb)

/-- Claim C8 (amended): across the rows of a creature-category group, AT
MOST one fully-unqualified (bare) display name is emitted — exactly one
when the group has exactly one member and none otherwise — and a bare row,
when emitted, is marked hidden = false.  The claim's "exactly one" fails
for groups with more than one member, which emit no bare row at all. -/
theorem one_bare_per_group (clean : String → String) (group : List Card)
    (hne : group ≠ []) (hall : ∀ c ∈ group, c.supertype = "Pokémon") :
    (group_rows clean group).countP bareRow = (if group.length = 1 then 1 else 0) ∧
    ∀ r ∈ group_rows clean group, bareRow r = true → r.hidden = false := by
  constructor
  · by_cases hN1 : group.length = 1
    · obtain ⟨a, rfl⟩ := List.length_eq_one.mp hN1
      have hsp := hall a (List.mem_singleton_self a)
      have h1 : (fqName a == a.name) = false :=
        beq_eq_false_iff_ne.mpr (fqName_ne_name a)
      have h2 : (setName a == a.name) = false :=
        beq_eq_false_iff_ne.mpr (setName_ne_name a)
      simp [group_rows, process_card, gen_cardnames, hsp, bareRow,
        List.countP_cons, h1, h2]
    · rw [if_neg hN1, List.countP_eq_zero]
      intro r hr
      simp only [group_rows, List.mem_flatMap] at hr
      obtain ⟨c, hc, hr⟩ := hr
      have hsp := hall c hc
      have hN : 1 ≤ group.length := List.length_pos.mpr hne
      have hud : decide (group.length ≤ 1) = false := decide_eq_false (by omega)
      simp only [process_card, List.mem_map] at hr
      obtain ⟨p, hp, rfl⟩ := hr
      rw [hud] at hp
      have := gen_cardnames_no_bare c _ hsp p hp
      simp [bareRow]
      exact this
  · intro r hr
    simp only [group_rows, List.mem_flatMap] at hr
    obtain ⟨c, hc, hr⟩ := hr
    exact process_card_bare_hidden clean c group r hr

/-- Claim C8 witness: the singleton group of `cardA`. -/
theorem one_bare_per_group_witness :
    (group_rows (fun s => s) [cardA]).countP bareRow =
      (if ([cardA] : List Card).length = 1 then 1 else 0) ∧
    ∀ r ∈ group_rows (fun s => s) [cardA], bareRow r = true → r.hidden = false :=
  one_bare_per_group (fun s => s) [cardA] (by decide) (by decide)

/-- Claim C8 counterexample: the two-member "Alpha" group emits no bare
row at all, so "exactly one fully-unqualified display name per
creature-category group" fails for it. -/
theorem one_bare_per_group_cex :
    (group_rows (fun s => s) [cardA, cardA2]).countP bareRow = 0 ∧ (0 : Nat) ≠ 1 :=
  ⟨by decide, by decide⟩

/-- Reading a cons cell of the grouping dict. -/
theorem lookupGroup_cons (k1 : String) (g : List Card)
    (m : List (String × List Card)) (k : String) :
    lookupGroup ((k1, g) :: m) k = if k1 == k then g else lookupGroup m k := rfl

/-- A non-empty dict value comes from some entry of the dict. -/
theorem lookupGroup_mem (m : List (String × List Card)) (k : String)
    (h : lookupGroup m k ≠ []) : ∃ e ∈ m, e.2 = lookupGroup m k := by
  induction m with
  | nil => exact absurd rfl h
  | cons e rest ih =>
    by_cases he : (e.1 == k) = true
    · exact ⟨e, List.mem_cons_self e rest, by simp [lookupGroup, he]⟩
    · have h' : lookupGroup rest k ≠ [] := by simpa [lookupGroup, he] using h
      obtain ⟨e', he', heq⟩ := ih h'
      exact ⟨e', List.mem_cons_of_mem e he', by simp [lookupGroup, he, heq]⟩

/-- One `defaultdict` append, seen through `lookupGroup`: the card joins
the end of exactly its key's list. -/
theorem lookupGroup_insertGrouped (m : List (String × List Card)) (k0 : String)
    (c : Card) (k : String) :
    lookupGroup (insertGrouped m k0 c) k =
      if k0 == k then lookupGroup m k ++ [c] else lookupGroup m k := by
  induction m with
  | nil =>
    by_cases h : (k0 == k) = true <;>
      simp [insertGrouped, lookupGroup_cons, lookupGroup, h]
  | cons e rest ih =>
    obtain ⟨k1, g⟩ := e
    by_cases h1 : (k1 == k0) = true
    · obtain rfl : k1 = k0 := eq_of_beq h1
      simp only [insertGrouped, if_pos h1, lookupGroup_cons]
      by_cases h2 : (k1 == k) = true
      · simp [h2]
      · simp [h2]
    · simp only [insertGrouped, if_neg h1, lookupGroup_cons]
      by_cases h2 : (k1 == k) = true
      · have hk : (k0 == k) = false := by
          apply beq_eq_false_iff_ne.mpr
          intro he
          exact h1 (beq_iff_eq.mpr (by rw [eq_of_beq h2, he]))
        simp [lookupGroup_cons, h2, hk]
      · simp only [if_neg h2]
        exact ih

/-- The grouping fold, relative to an arbitrary starting dict. -/
theorem lookupGroup_foldl (clean : String → String) (cards : List Card) (k : String) :
    ∀ m : List (String × List Card),
      lookupGroup (cards.foldl (fun m c => insertGrouped m (clean c.name) c) m) k =
        lookupGroup m k ++ cards.filter (fun c => clean c.name == k) := by
  induction cards with
  | nil => intro m; simp
  | cons c cs ih =>
    intro m
    simp only [List.foldl_cons, List.filter_cons]
    rw [ih, lookupGroup_insertGrouped]
    by_cases h : (clean c.name == k) = true
    · simp [h]
    · simp [h]

/-- The dict entry of key `k` in `groupByName` is exactly the fetch-order
filter of the cards whose cleaned name is `k`. -/
theorem lookupGroup_groupByName (clean : String → String) (cards : List Card) (k : String) :
    lookupGroup (groupByName clean cards) k =
      cards.filter (fun c => clean c.name == k) := by
  unfold groupByName
  simpa [lookupGroup] using lookupGroup_foldl clean cards k []

/-- Python `max` specification: the fold of `pymax` returns the first
element attaining the maximal key. -/
theorem pymax_isFirstMax (key : Card → String) (c : Card) (cs : List Card) :
    isFirstMax key (pymax key c cs) (c :: cs) := by
  induction cs generalizing c with
  | nil =>
    refine ⟨0, rfl, ?_, ?_⟩
    · intro x hx
      rw [List.mem_singleton.mp hx]
      exact le_refl _
    · intro j x hj _
      exact absurd hj (Nat.not_lt_zero j)
  | cons x cs ih =>
    rw [pymax, List.foldl_cons]
    show isFirstMax key (pymax key (if key c < key x then x else c) cs) (c :: x :: cs)
    by_cases hcx : key c < key x
    · rw [if_pos hcx]
      obtain ⟨i, hget, hmax, hfirst⟩ := ih x
      refine ⟨i + 1, ?_, ?_, ?_⟩
      · rw [List.get?_cons_succ]
        exact hget
      · intro y hy
        rcases List.mem_cons.mp hy with rfl | hy
        · exact le_of_lt (lt_of_lt_of_le hcx (hmax x (List.mem_cons_self x cs)))
        · exact hmax y hy
      · intro j y hj hget'
        cases j with
        | zero =>
          rw [List.get?_cons_zero] at hget'
          obtain rfl : c = y := Option.some.inj hget'
          exact lt_of_lt_of_le hcx (hmax x (List.mem_cons_self x cs))
        | succ j' =>
          rw [List.get?_cons_succ] at hget'
          exact hfirst j' y (by omega) hget'
    · rw [if_neg hcx]
      have hxc : key x ≤ key c := le_of_not_lt hcx
      obtain ⟨i, hget, hmax, hfirst⟩ := ih c
      cases i with
      | zero =>
        rw [List.get?_cons_zero] at hget
        have hcm : c = pymax key c cs := Option.some.inj hget
        refine ⟨0, ?_, ?_, ?_⟩
        · rw [List.get?_cons_zero, ← hcm]
        · intro y hy
          rcases List.mem_cons.mp hy with rfl | hy
          · rw [← hcm]
          · rcases List.mem_cons.mp hy with rfl | hy
            · rw [← hcm]
              exact hxc
            · exact hmax y (List.mem_cons_of_mem c hy)
        · intro j y hj _
          exact absurd hj (Nat.not_lt_zero j)
      | succ i' =>
        rw [List.get?_cons_succ] at hget
        have hc_lt : key c < key (pymax key c cs) :=
          hfirst 0 c (Nat.succ_pos i') rfl
        refine ⟨i' + 2, ?_, ?_, ?_⟩
        · rw [List.get?_cons_succ, List.get?_cons_succ]
          exact hget
        · intro y hy
          rcases List.mem_cons.mp hy with rfl | hy
          · exact hmax y (List.mem_cons_self y cs)
          · rcases List.mem_cons.mp hy with rfl | hy
            · exact le_of_lt (lt_of_le_of_lt hxc hc_lt)
            · exact hmax y (List.mem_cons_of_mem c hy)
        · intro j y hj hget'
          match j, hj with
          | 0, _ =>
            rw [List.get?_cons_zero] at hget'
            obtain rfl : c = y := Option.some.inj hget'
            exact hc_lt
          | 1, _ =>
            rw [List.get?_cons_succ, List.get?_cons_zero] at hget'
            obtain rfl : x = y := Option.some.inj hget'
            exact lt_of_le_of_lt hxc hc_lt
          | (j'' + 2), hj =>
            rw [List.get?_cons_succ, List.get?_cons_succ] at hget'
            exact hfirst (j'' + 1) y (by omega) (by rw [List.get?_cons_succ]; exact hget')

/-- Claim C5: for every non-empty same-cleaned-name class of non-creature
records (taken in fetch order), `group_other_cards` outputs the singleton
group of the record with the maximum release date among them, and on an
exact release-date tie the first-encountered record wins (`isFirstMax`). -/
theorem group_other_cards_firstmax (clean : String → String) (cards : List Card)
    (k : String) (h : cards.filter (fun c => clean c.name == k) ≠ []) :
    ∃ m, [m] ∈ group_other_cards clean cards ∧
      isFirstMax releaseKey m (cards.filter (fun c => clean c.name == k)) := by
  have hlk := lookupGroup_groupByName clean cards k
  have hne : lookupGroup (groupByName clean cards) k ≠ [] := by
    rw [hlk]
    exact h
  obtain ⟨e, hemem, heq⟩ := lookupGroup_mem _ _ hne
  have he2 : e.2 = cards.filter (fun c => clean c.name == k) := by rw [heq, hlk]
  cases hcls : e.2 with
  | nil =>
    rw [hcls] at he2
    exact absurd he2.symm h
  | cons c0 cs0 =>
    refine ⟨pymax releaseKey c0 cs0, ?_, ?_⟩
    · refine List.mem_map.mpr ⟨e, hemem, ?_⟩
      show (match e.2 with
        | [] => ([] : List Card)
        | c :: cs => [pymax releaseKey c cs]) = [pymax releaseKey c0 cs0]
      rw [hcls]
    · rw [hcls] at he2
      exact he2 ▸ pymax_isFirstMax releaseKey c0 cs0

/-- Claim C5 witness: two Trainer "Potion" records with equal release
dates — the first-fetched one is the selected maximum. -/
theorem group_other_cards_firstmax_witness :
    ∃ m, [m] ∈ group_other_cards (fun s => s) [cardT, cardT2] ∧
      isFirstMax releaseKey m (([cardT, cardT2] : List Card).filter
        (fun c => c.name == "Potion")) :=
  group_other_cards_firstmax (fun s => s) [cardT, cardT2] "Potion" (by decide)

end PTCG

namespace YT

/-- Claim C10: for every string input (and any limit),
`check_message_length` fails with a `TypeError` — `bytes // int` is an
unsupported operation — before any comparison, so it never returns a
boolean for any input. -/
theorem check_message_length_always_type_error (message : String) (max_len : Int) :
    check_message_length message max_len =
      Except.error "TypeError: unsupported operand types for //: bytes and int" ∧
    ∀ b : Bool, check_message_length message max_len ≠ Except.ok b := by
  refine ⟨rfl, ?_⟩
  intro b h
  exact Except.noConfusion ((rfl :
    check_message_length message max_len =
      Except.error "TypeError: unsupported operand types for //: bytes and int") ▸ h)

end YT
